import Mathlib

/-!
Verification of the laser-timer bullseye core (manual-calibration variant in
one source file, ArUco auto-calibration variant in the other) against its
natural-language specification.

Conventions of the shallow embedding:
* JavaScript numbers are modelled as exact rationals (`ℚ`); the sources only
  perform field arithmetic and comparisons on them.
* `Math.hypot(dx,dy) <= r` is embedded as `dx^2 + dy^2 ≤ r^2`; for the
  nonnegative ring radii of the fixed BULLSEYE configuration this is exactly
  the comparison the source performs, and the link with the real Euclidean
  distance is proved via `Real.sqrt` where a claim mentions the distance.
* 8-bit image arithmetic (`cv.subtract`, `cv.add` on CV_8U) saturates; `ℕ`
  truncated subtraction and `min (a + b) 255` model it.
* OpenCV library routines that are not part of the repository
  (`getPerspectiveTransform`, `findContours`/`moments`, `cvtColor` to HSV) are
  modelled from the specification text, as documented at each definition.
-/

/-- A 2-D point with rational coordinates (spec `Point2D`). -/
abbrev Point : Type := ℚ × ℚ

/-- JavaScript `Math.round`: round half toward positive infinity. -/
def jsRound (q : ℚ) : ℤ := ⌊q + 1/2⌋

/-! ## ScoreEngine (`scoreBullseye`, identical in both source files)

The sources fix
`BULLSEYE = {center:[450,600], rings:[120,220,320,420], points:[10,9,8,7,6]}`. -/

/-- BULLSEYE.center from both sources. -/
def bullseyeCenter : Point := (450, 600)

/-- BULLSEYE.rings from both sources. -/
def bullseyeRings : List ℚ := [120, 220, 320, 420]

/-- BULLSEYE.points from both sources. -/
def bullseyePoints : List ℤ := [10, 9, 8, 7, 6]

/-- Squared Euclidean distance between two points. -/
def dist2 (p q : Point) : ℚ := (p.1 - q.1) ^ 2 + (p.2 - q.2) ^ 2

/-- Euclidean distance between two points, as a real number; this is the exact
value of `Math.hypot(p.x-q.x, p.y-q.y)` in the sources. -/
noncomputable def euclid (p q : Point) : ℝ := Real.sqrt ((dist2 p q : ℚ) : ℝ)

/-- Embedding of the ring loop of `scoreBullseye`:
`for(i...) if(d<=rings[i]) return points[i]; return points[points.length-1]`.
The loop walks the rings in array order paired with the matching points
entries (`zip` below); the comparison `d <= r` with `d = Math.hypot(...) ≥ 0`
is embedded as `d2 ≤ r^2`, which is equivalent for the nonnegative radii this
is instantiated with. -/
def ringScore (d2 : ℚ) : List (ℚ × ℤ) → ℤ → ℤ
  | [], catchAll => catchAll
  | (r, v) :: rest, catchAll => if d2 ≤ r ^ 2 then v else ringScore d2 rest catchAll

/-- Embedding of `scoreBullseye` (identical in the manual and the auto source
file): Euclidean distance from `BULLSEYE.center`, first ring in array order
whose radius is at least the distance wins, `points[points.length-1]` is the
catch-all. -/
def scoreBullseye (p : Point) : ℤ :=
  ringScore (dist2 p bullseyeCenter) (bullseyeRings.zip bullseyePoints)
    (bullseyePoints.getLastD 0)

/-! ## Homographies

A homography is a 3×3 projective matrix. `cv.getPerspectiveTransform` and
`cv.perspectiveTransform` are OpenCV routines, not repository code; the
matrix application below embeds `cv.perspectiveTransform` (multiply by the
matrix and divide by the third homogeneous coordinate), and
`IsPerspectiveTransform` is the contract of `cv.getPerspectiveTransform`.
Modelled from the spec: a Homography is a 3×3 projective transform mapping
camera-space points to target-space points, built so that the four given
source points map to the four given destination points. -/

/-- A 3×3 matrix of rationals, row major (a b c / d e f / g h i). -/
structure H3 where
  a : ℚ
  b : ℚ
  c : ℚ
  d : ℚ
  e : ℚ
  f : ℚ
  g : ℚ
  h : ℚ
  i : ℚ
deriving DecidableEq

/-- The identity matrix. -/
def H3.id : H3 := ⟨1, 0, 0, 0, 1, 0, 0, 0, 1⟩

/-- Third homogeneous coordinate of the image of `p` under `M`. -/
def H3.w (M : H3) (p : Point) : ℚ := M.g * p.1 + M.h * p.2 + M.i

/-- Embedding of `cv.perspectiveTransform` for a single point: homogeneous
multiplication followed by the perspective division. Division is the total
field division of `ℚ` (the sources never hit a zero third coordinate in the
claims considered; where a claim needs it, nondegeneracy `M.w p ≠ 0` is
tracked on the side). -/
def applyH (M : H3) (p : Point) : Point :=
  ((M.a * p.1 + M.b * p.2 + M.c) / M.w p,
   (M.d * p.1 + M.e * p.2 + M.f) / M.w p)

/-- Virtual target rectangle size, `warpSize = {w:900, h:1200}` in both
source files. -/
def warpSize : ℚ × ℚ := (900, 1200)

/-- The four corners of the virtual target rectangle in the order the sources
write them into `dstTri`: `(0,0), (w,0), (w,h), (0,h)` (TL, TR, BR, BL). -/
def dstCorners : Fin 4 → Point :=
  ![(0, 0), (warpSize.1, 0), (warpSize.1, warpSize.2), (0, warpSize.2)]

/-- Contract of `cv.getPerspectiveTransform src dst` (modelled from the spec,
the routine itself is OpenCV library code): the produced matrix sends each of
the four source points to the corresponding destination point, with a
nonvanishing third homogeneous coordinate at each of them. -/
def IsPerspectiveTransform (M : H3) (src dst : Fin 4 → Point) : Prop :=
  ∀ k : Fin 4, M.w (src k) ≠ 0 ∧ applyH M (src k) = dst k

/-! ## Manual corner calibration (`handleCalibTap` / `buildHomographyFromCalib`) -/

/-- Embedding of `handleCalibTap` (manual variant): when calibration mode is
off the tap is ignored; otherwise the tap is appended to `calibPoints`, and
once the fourth point has been collected, `buildHomographyFromCalib` fires on
the four points in tap order, calibration mode ends and the tap list is
cleared. The returned quadruple is the `srcTri` of the built homography (the
matrix itself is characterized by `IsPerspectiveTransform _ quad dstCorners`). -/
def handleCalibTap (calibrationMode : Bool) (calibPoints : List Point)
    (tap : Point) : Bool × List Point × Option (Fin 4 → Point) :=
  if calibrationMode then
    let pts := calibPoints ++ [tap]
    if pts.length = 4 then
      (false, [], some ![pts.getD 0 (0, 0), pts.getD 1 (0, 0),
                         pts.getD 2 (0, 0), pts.getD 3 (0, 0)])
    else (true, pts, none)
  else (calibrationMode, calibPoints, none)

/-- Four manual calibration taps fed in order, starting from the state
`startManualCalibration` leaves behind (mode on, no points). Returns the
final state of the tap handler. -/
def fourTaps (t1 t2 t3 t4 : Point) : Bool × List Point × Option (Fin 4 → Point) :=
  let s1 := handleCalibTap true [] t1
  let s2 := handleCalibTap s1.1 s1.2.1 t2
  let s3 := handleCalibTap s2.1 s2.2.1 t3
  handleCalibTap s3.1 s3.2.1 t4

/-! ## Auto-calibration hull construction (`hullHomography`, auto variant) -/

/-- The `sum` selector `p.x + p.y` of `hullHomography`. -/
def sumC (p : Point) : ℚ := p.1 + p.2

/-- The `dif` selector `p.x - p.y` of `hullHomography`. -/
def difC (p : Point) : ℚ := p.1 - p.2

/-- JavaScript `pts.reduce((a,b) => f(a) < f(b) ? a : b)`: fold keeping the
element with the smaller selector value (later element on ties, as in the
source arrow function). -/
def reduceMinBy (f : Point → ℚ) (a : Point) : List Point → Point
  | [] => a
  | b :: rest => reduceMinBy f (if f a < f b then a else b) rest

/-- JavaScript `pts.reduce((a,b) => f(a) > f(b) ? a : b)`. -/
def reduceMaxBy (f : Point → ℚ) (a : Point) : List Point → Point
  | [] => a
  | b :: rest => reduceMaxBy f (if f a > f b then a else b) rest

/-- Embedding of `hullHomography` (auto variant): with fewer than 4 points
it returns no homography and count 0; otherwise it picks the four extremes
(tl = min x+y, br = max x+y, tr = min x−y, bl = max x−y) and builds the
perspective transform from `srcTri = [tl, tr, br, bl]` onto `dstCorners`.
The returned quadruple is that `srcTri`; the matrix itself is characterized
by `IsPerspectiveTransform _ quad dstCorners`. -/
def hullHomography (pts : List Point) : Option (Fin 4 → Point) × ℕ :=
  match pts with
  | [] => (none, 0)
  | p :: rest =>
    if (p :: rest).length < 4 then (none, 0)
    else
      (some ![reduceMinBy sumC p rest, reduceMinBy difC p rest,
              reduceMaxBy sumC p rest, reduceMaxBy difC p rest], 4)

/-! ## GameLoop (`frameLoop`, identical hit/debounce/session logic in both
source files)

One `frameStep` models one scheduled iteration of `frameLoop`: if `running`
is false the loop body does not run; otherwise, when the detector returned a
centroid and a homography is published, the centroid is scaled by the
overlay/processing ratio, projected by the homography, and — only when
strictly more than 120 ms of wall clock have passed since the last accepted
hit — scored, counted and emitted; reaching the shot goal stops the loop and
emits the end-of-session summary `(total, total/goal)`. -/

/-- An observable event of one loop iteration: a scored hit
(`updateStats/drawHit/playSteel` with the new score) or the end-of-session
summary alert. -/
inductive GEvent
  | hit (ptW : Point) (score : ℤ)
  | summary (total : ℤ) (avg : ℚ)
deriving DecidableEq

/-- The mutable session state of the sources:
`running, shotsFired, totalScore, lastHitTs`. -/
structure GameState where
  running : Bool
  shotsFired : ℕ
  totalScore : ℤ
  lastHitTs : ℚ
deriving DecidableEq

/-- The per-iteration inputs of `frameLoop`: the wall clock `performance.now()`,
the centroid returned by `detectTransientRed` (if any), the currently
published homography (if any), and the overlay/processing scale factors. -/
structure FrameInput where
  now : ℚ
  hit : Option Point
  Hmat : Option H3
  sx : ℚ
  sy : ℚ

/-- Embedding of one iteration of `frameLoop`. -/
def frameStep (gameShots : ℕ) (s : GameState) (inp : FrameInput) :
    GameState × List GEvent :=
  if s.running = false then (s, [])
  else
    match inp.hit, inp.Hmat with
    | some c, some M =>
      let ptW := applyH M (c.1 * inp.sx, c.2 * inp.sy)
      if 120 < inp.now - s.lastHitTs then
        let score := scoreBullseye ptW
        let shots := s.shotsFired + 1
        let total := s.totalScore + score
        if gameShots ≤ shots then
          (⟨false, shots, total, inp.now⟩,
           [GEvent.hit ptW score, GEvent.summary total (total / (gameShots : ℚ))])
        else
          (⟨true, shots, total, inp.now⟩, [GEvent.hit ptW score])
      else (s, [])
    | _, _ => (s, [])

/-- A whole run of the loop over a list of iteration inputs, collecting the
emitted events in order. -/
def runGame (gameShots : ℕ) (s : GameState) : List FrameInput → GameState × List GEvent
  | [] => (s, [])
  | inp :: rest =>
    let r1 := frameStep gameShots s inp
    let r2 := runGame gameShots r1.1 rest
    (r2.1, r1.2 ++ r2.2)

/-- Number of summary events in an event list. -/
def countSummary : List GEvent → ℕ
  | [] => 0
  | GEvent.summary _ _ :: rest => countSummary rest + 1
  | GEvent.hit _ _ :: rest => countSummary rest

/-- Number of hit events in an event list. -/
def countHit : List GEvent → ℕ
  | [] => 0
  | GEvent.hit _ _ :: rest => countHit rest + 1
  | GEvent.summary _ _ :: rest => countHit rest

/-- Session state right after `startFlow` starts a game: counters cleared,
loop running; `lastHitTs` keeps whatever value it had (0 at page load). -/
def initSession (t0 : ℚ) : GameState := ⟨true, 0, 0, t0⟩

/-! ## Auto-calibration engine (`startCalibration` tick and the staleness
check of `frameLoop`, auto variant)

The ArUco detector itself is an OpenCV object; a calibration tick is
therefore driven by the list of marker corner quadruples it observed, and
the square-fallback result is likewise an oracle input. Everything the
repository code does with those observations is embedded below. -/

/-- Status line values written by the auto variant (`#status`): the
markers line with its count and calibrated/seeking suffix, the two squares
lines, and the two texts written by the staleness check and the
re-calibrate button. -/
inductive CalibStatus
  | markers (count : ℕ) (calibrated : Bool)
  | calibratedSquares
  | seekingSquares
  | reacquiring
  | recalibrating
deriving DecidableEq

/-- Calibration globals of the auto variant: the published homography `H`
(represented by the `srcTri` quadruple it was built from, see
`IsPerspectiveTransform`), `lastHTime`, `lossStreak` and the status line. -/
structure CalibState where
  Hpub : Option (Fin 4 → Point)
  lastHTime : ℚ
  lossStreak : ℕ
  status : CalibStatus

/-- Embedding of `detectMarkersAndHomography`: fewer than 2 detected markers
yield no homography and the marker count; otherwise all 4 corners of every
marker are collected (scaled by `sx, sy`) and passed to `hullHomography`. -/
def detectMarkersAndHomography (markers : List (Fin 4 → Point))
    (sx sy : ℚ) : Option (Fin 4 → Point) × ℕ :=
  if markers.length < 2 then (none, markers.length)
  else hullHomography
    ((markers.map (fun m => (List.finRange 4).map
      (fun k => ((m k).1 * sx, (m k).2 * sy)))).flatten)

/-- Embedding of one `startCalibration` interval tick of the auto variant:
run marker detection; if it failed and the square fallback is enabled, use
the fallback result instead and report the squares status, otherwise report
the markers status; then — only if the chosen result carries a homography —
replace the published one and restamp `lastHTime`, resetting `lossStreak`.
A failed tick touches nothing but the status line. -/
def calibTick (s : CalibState) (now : ℚ) (markers : List (Fin 4 → Point))
    (sx sy : ℚ) (sqEnabled : Bool) (sqRes : Option (Fin 4 → Point) × ℕ) :
    CalibState :=
  let res := detectMarkersAndHomography markers sx sy
  let pick :=
    if res.1.isNone && sqEnabled then
      (sqRes.1, if sqRes.1.isSome then CalibStatus.calibratedSquares
                else CalibStatus.seekingSquares)
    else (res.1, CalibStatus.markers res.2 res.1.isSome)
  match pick.1 with
  | some q => ⟨some q, now, 0, pick.2⟩
  | none => ⟨s.Hpub, s.lastHTime, s.lossStreak, pick.2⟩

/-- Embedding of the staleness check at the top of the auto variant
`frameLoop`: with no published homography or one older than 2000 ms the
loss streak grows and, past 60, the status degrades to Reacquiring; the
published homography itself is untouched. Otherwise the streak resets. -/
def staleCheck (s : CalibState) (now : ℚ) : CalibState :=
  if s.Hpub.isNone ∨ 2000 < now - s.lastHTime then
    ⟨s.Hpub, s.lastHTime, s.lossStreak + 1,
     if 60 < s.lossStreak + 1 then CalibStatus.reacquiring else s.status⟩
  else ⟨s.Hpub, s.lastHTime, 0, s.status⟩

/-- Embedding of the `#calibBtn` handler: an explicit recalibration request
deletes the published homography and resets the clock and streak. -/
def recalibRequest (_s : CalibState) : CalibState :=
  ⟨none, 0, 0, CalibStatus.recalibrating⟩

/-- One scheduled operation of the auto variant touching the calibration
globals: a calibration tick or the per-frame staleness check. -/
inductive CalibOp
  | tick (now : ℚ) (markers : List (Fin 4 → Point)) (sx sy : ℚ)
      (sqEnabled : Bool) (sqRes : Option (Fin 4 → Point) × ℕ)
  | frameCheck (now : ℚ)

/-- Apply one operation. -/
def applyCalibOp (s : CalibState) : CalibOp → CalibState
  | CalibOp.tick now markers sx sy sqEnabled sqRes =>
      calibTick s now markers sx sy sqEnabled sqRes
  | CalibOp.frameCheck now => staleCheck s now

/-- Run a sequence of operations. -/
def runCalib (s : CalibState) : List CalibOp → CalibState
  | [] => s
  | op :: rest => runCalib (applyCalibOp s op) rest

/-- An operation that never produces a fresh homography: a tick seeing
fewer than 2 markers whose square fallback is disabled or itself
unsuccessful, or a mere staleness check. -/
def CalibOp.failed : CalibOp → Prop
  | CalibOp.tick _ markers _ _ sqEnabled sqRes =>
      markers.length < 2 ∧ (sqEnabled = false ∨ sqRes.1 = none)
  | CalibOp.frameCheck _ => True

/-! ## Red-flash detection pipeline (`detectTransientRed`)

The pipeline is shared, line for line, by the two source files; they differ
only in how the `sens`/`minArea` thresholds are obtained from the UI inputs
(the manual variant applies JavaScript `|| 18` / `|| 16` defaulting, the
auto variant does not).

Frames are rasters of 8-bit RGB pixels. The HSV conversion (`cv.cvtColor`
RGB2HSV) is OpenCV library code; it enters the embedding as a conversion
function parameter. Modelled from the spec: the segmenter converts to a
hue-saturation-value representation (8-bit OpenCV ranges: hue 0..179,
saturation and value 0..255). Contour extraction (`cv.findContours` with
`cv.contourArea`/`cv.moments`) is likewise OpenCV code; it enters as an
extraction function parameter constrained by `ValidBlobs`. Modelled from the
spec: connected components are maximal nonempty sets of adjacent foreground
pixels of the diff mask; their area is the pixel count, their first moments
the coordinate sums. -/

/-- An 8-bit RGB pixel. -/
structure RGB where
  r : ℕ
  g : ℕ
  b : ℕ
deriving DecidableEq

/-- An 8-bit HSV pixel (OpenCV ranges: h 0..179, s 0..255, v 0..255). -/
structure HSV where
  h : ℕ
  s : ℕ
  v : ℕ
deriving DecidableEq

/-- A camera frame: rows of pixels. -/
abbrev Frame := List (List RGB)

/-- A single-channel mask: rows of 8-bit values. -/
abbrev Mask := List (List ℕ)

/-- Pixel value of a mask at column x, row y (0 outside). -/
def maskGet (m : Mask) (x y : ℕ) : ℕ := (m.getD y []).getD x 0

/-- Height of a mask. -/
def maskH (m : Mask) : ℕ := m.length

/-- Width of a mask (row length; masks here are rectangular). -/
def maskW (m : Mask) : ℕ := (m.headD []).length

/-- The per-pixel segmentation of `detectTransientRed`, given the HSV
conversion: the two inclusive hue-band `cv.inRange` tests (low band hue 0..12,
high band hue 160..179, both with saturation ≥ 110 and value ≥ 170), ORed by
the saturating `cv.add`; the saturating 8-bit `cv.subtract` of the red and
green channels thresholded strictly at 36 (`cv.threshold ... THRESH_BINARY`);
and the `cv.bitwise_and` of the two masks. -/
def redPixelMask (hsvFn : RGB → HSV) (px : RGB) : ℕ :=
  let hv := hsvFn px
  let m1 := if hv.h ≤ 12 ∧ 110 ≤ hv.s ∧ hv.s ≤ 255 ∧ 170 ≤ hv.v ∧ hv.v ≤ 255
    then 255 else 0
  let m2 := if 160 ≤ hv.h ∧ hv.h ≤ 179 ∧ 110 ≤ hv.s ∧ hv.s ≤ 255 ∧
      170 ≤ hv.v ∧ hv.v ≤ 255
    then 255 else 0
  let maskRed := min (m1 + m2) 255
  let maskRG := if 36 < px.r - px.g then 255 else 0
  Nat.land maskRed maskRG

/-- The combined red-candidate mask before the morphological opening. -/
def rawRedMask (hsvFn : RGB → HSV) (frame : Frame) : Mask :=
  frame.map (fun row => row.map (redPixelMask hsvFn))

/-- Mask value with explicit border value for out-of-range coordinates, as
OpenCV morphology uses (border max for erosion, border 0 for dilation). -/
def maskGetB (m : Mask) (border : ℕ) (x y : ℤ) : ℕ :=
  if 0 ≤ x ∧ x < (maskW m : ℤ) ∧ 0 ≤ y ∧ y < (maskH m : ℤ)
  then maskGet m x.toNat y.toNat else border

/-- The 3×3 neighborhood values around (x, y). -/
def neighborhood3 (f : ℤ → ℤ → ℕ) (x y : ℕ) : List ℕ :=
  [f ((x : ℤ) - 1) ((y : ℤ) - 1), f x ((y : ℤ) - 1), f ((x : ℤ) + 1) ((y : ℤ) - 1),
   f ((x : ℤ) - 1) y, f x y, f ((x : ℤ) + 1) y,
   f ((x : ℤ) - 1) ((y : ℤ) + 1), f x ((y : ℤ) + 1), f ((x : ℤ) + 1) ((y : ℤ) + 1)]

/-- Erosion with the 3×3 ones kernel. -/
def erode3 (m : Mask) : Mask :=
  (List.range (maskH m)).map (fun y => (List.range (maskW m)).map (fun x =>
    (neighborhood3 (maskGetB m 255) x y).foldr min 255))

/-- Dilation with the 3×3 ones kernel. -/
def dilate3 (m : Mask) : Mask :=
  (List.range (maskH m)).map (fun y => (List.range (maskW m)).map (fun x =>
    (neighborhood3 (maskGetB m 0) x y).foldr max 0))

/-- Morphological opening with the 3×3 ones kernel
(`cv.morphologyEx ... MORPH_OPEN`): erosion, then dilation. -/
def open3 (m : Mask) : Mask := dilate3 (erode3 m)

/-- The full color segmentation of `detectTransientRed`: the per-pixel
red-candidate test followed by the 3×3 opening. -/
def colorSegment (hsvFn : RGB → HSV) (frame : Frame) : Mask :=
  open3 (rawRedMask hsvFn frame)

/-- The per-pixel saturating subtraction `cv.subtract` of two CV_8U masks
(`max (0, current − previous)`, realized by truncated ℕ subtraction). -/
def satSub (cur prev : Mask) : Mask :=
  List.zipWith (fun rc rp => List.zipWith (fun a b => a - b) rc rp) cur prev

/-- An all-zero mask. -/
def maskZero (m : Mask) : Prop := ∀ row ∈ m, ∀ v ∈ row, v = 0

/-- A connected component of a diff mask, by its pixel coordinates.
Modelled from the spec: a maximal nonempty set of adjacent foreground
pixels; the claims only need nonemptiness and foreground membership,
recorded in `ValidBlobs`. -/
structure Blob where
  pixels : List (ℕ × ℕ)
deriving DecidableEq

/-- What the repository reads off one contour: `cv.contourArea` and the
`m00, m10, m01` moments. -/
structure Comp where
  area : ℚ
  m00 : ℚ
  m10 : ℚ
  m01 : ℚ
deriving DecidableEq

/-- The contour measurements of a component. Modelled from the spec: the
area is the pixel count and the moments are the coordinate sums (OpenCV
guarantees `contourArea = |m00|`; on these pixel-set components both equal
the pixel count). -/
def Blob.comp (b : Blob) : Comp :=
  ⟨b.pixels.length, b.pixels.length,
   (b.pixels.map (fun q => (q.1 : ℚ))).sum,
   (b.pixels.map (fun q => (q.2 : ℚ))).sum⟩

/-- Contract of the contour extraction (`cv.findContours`, OpenCV code,
modelled from the spec): every extracted component is a nonempty set of
foreground pixels of the mask it was extracted from. -/
def ValidBlobs (m : Mask) (blobs : List Blob) : Prop :=
  ∀ b ∈ blobs, b.pixels ≠ [] ∧ ∀ q ∈ b.pixels, maskGet m q.1 q.2 ≠ 0

/-- JavaScript comparison `a > threshold` where the threshold may be NaN
(`parseInt` of a non-numeric input): any comparison with NaN is false. -/
def aGtB (thr : Option ℚ) (a : ℚ) : Bool :=
  match thr with
  | some v => decide (v < a)
  | none => false

/-- The centroid the source computes:
`{x: Math.round(m.m10/m.m00), y: Math.round(m.m01/m.m00)}`. -/
def jsCentroid (c : Comp) : ℤ × ℤ := (jsRound (c.m10 / c.m00), jsRound (c.m01 / c.m00))

/-- Embedding of the contour loop of `detectTransientRed`: walk the
components in traversal order carrying `(pt, best)`; a component is
considered only when its area strictly exceeds `minArea`, `sens` and the
best area so far, and only a nonzero `m00` lets it set the centroid and the
best area. -/
def blobLoop (minA sens : Option ℚ) :
    List Comp → Option (ℤ × ℤ) × ℚ → Option (ℤ × ℤ) × ℚ
  | [], acc => acc
  | c :: rest, (pt, best) =>
    blobLoop minA sens rest
      (if aGtB minA c.area && aGtB sens c.area && decide (best < c.area) then
        (if c.m00 ≠ 0 then (some (jsCentroid c), c.area) else (pt, best))
      else (pt, best))

/-- The centroid selected from a list of components (`pt` of the source,
starting from `pt = null`, `best = 0`). -/
def detectBlobs (minA sens : Option ℚ) (comps : List Comp) : Option (ℤ × ℤ) :=
  (blobLoop minA sens comps (none, 0)).1

/-- The shared body of `detectTransientRed` (identical in both source
files), after the thresholds have been read: segment the frame, and — only
if a previous mask is stored — run the contour selection on the saturating
diff of the two masks; the current mask unconditionally becomes the new
stored mask. Returns `(centroid?, new stored mask)`. -/
def detectCore (hsvFn : RGB → HSV) (blobsOf : Mask → List Blob)
    (minA sens : Option ℚ) (prev : Option Mask) (frame : Frame) :
    Option (ℤ × ℤ) × Mask :=
  let combined := colorSegment hsvFn frame
  match prev with
  | none => (none, combined)
  | some pm =>
    (detectBlobs minA sens ((blobsOf (satSub combined pm)).map Blob.comp),
     combined)

/-- JavaScript `parseInt(v) || d`: the default replaces a failed parse
(NaN) and also a parsed 0, since 0 is falsy. -/
def jsOrDefault (x : Option ℤ) (d : ℤ) : ℤ :=
  match x with
  | some v => if v = 0 then d else v
  | none => d

/-- Embedding of the `detectTransientRed` of the manual variant: thresholds
are the parsed sens input ORed with 18 and the parsed minArea input ORed
with 16. -/
def detectTransientRedManual (hsvFn : RGB → HSV) (blobsOf : Mask → List Blob)
    (sensRaw minARaw : Option ℤ) (prev : Option Mask) (frame : Frame) :
    Option (ℤ × ℤ) × Mask :=
  detectCore hsvFn blobsOf (some ((jsOrDefault minARaw 16 : ℤ) : ℚ))
    (some ((jsOrDefault sensRaw 18 : ℤ) : ℚ)) prev frame

/-- Embedding of the `detectTransientRed` of the auto variant: thresholds
are the parsed sens and minArea inputs with no defaulting, so a failed
parse leaves NaN in the comparisons. -/
def detectTransientRedAuto (hsvFn : RGB → HSV) (blobsOf : Mask → List Blob)
    (sensRaw minARaw : Option ℤ) (prev : Option Mask) (frame : Frame) :
    Option (ℤ × ℤ) × Mask :=
  detectCore hsvFn blobsOf (minARaw.map (fun v => (v : ℚ)))
    (sensRaw.map (fun v => (v : ℚ))) prev frame

/-- A run of `detectCore` over successive frames, threading the stored
mask. -/
def detectRun (hsvFn : RGB → HSV) (blobsOf : Mask → List Blob)
    (minA sens : Option ℚ) :
    Option Mask → List Frame → List (Option (ℤ × ℤ)) × Option Mask
  | prev, [] => ([], prev)
  | prev, f :: fs =>
    let r := detectCore hsvFn blobsOf minA sens prev f
    let rest := detectRun hsvFn blobsOf minA sens (some r.2) fs
    (r.1 :: rest.1, rest.2)

/-- A concrete single-component extractor satisfying `ValidBlobs`: all
foreground pixels of the mask collected into one component (row-major).
Used to instantiate the extraction oracle on concrete inputs. -/
def wholeBlobPts (m : Mask) : List (ℕ × ℕ) :=
  (List.range (maskH m)).flatMap (fun y =>
    (List.range (maskW m)).filterMap (fun x =>
      if maskGet m x y ≠ 0 then some (x, y) else none))

def wholeBlobs (m : Mask) : List Blob :=
  if (wholeBlobPts m).isEmpty then [] else [⟨wholeBlobPts m⟩]

/-- The constant HSV conversion used on concrete inputs: every pixel reads
as fully saturated bright red hue 0 (so the red-candidate test reduces to
the red-green separation test). -/
def hsvRedC : RGB → HSV := fun _ => ⟨0, 255, 255⟩

/-- A 5×5 test frame: a 3×3 block of pure red pixels centered in black. -/
def frame5 : Frame :=
  [[⟨0,0,0⟩, ⟨0,0,0⟩, ⟨0,0,0⟩, ⟨0,0,0⟩, ⟨0,0,0⟩],
   [⟨0,0,0⟩, ⟨255,0,0⟩, ⟨255,0,0⟩, ⟨255,0,0⟩, ⟨0,0,0⟩],
   [⟨0,0,0⟩, ⟨255,0,0⟩, ⟨255,0,0⟩, ⟨255,0,0⟩, ⟨0,0,0⟩],
   [⟨0,0,0⟩, ⟨255,0,0⟩, ⟨255,0,0⟩, ⟨255,0,0⟩, ⟨0,0,0⟩],
   [⟨0,0,0⟩, ⟨0,0,0⟩, ⟨0,0,0⟩, ⟨0,0,0⟩, ⟨0,0,0⟩]]

/-- A 5×5 all-zero mask (the stored history after an all-black frame). -/
def zero5 : Mask := List.replicate 5 (List.replicate 5 0)

/-- Embedding of the `scoreBullseye` of the auto variant (textually the
same algorithm over the same BULLSEYE constants as in the manual variant,
whose embedding is `scoreBullseye` above). -/
def scoreBullseyeAuto (p : Point) : ℤ :=
  ringScore (dist2 p bullseyeCenter) (bullseyeRings.zip bullseyePoints)
    (bullseyePoints.getLastD 0)



lemma dist2_nonneg (p q : Point) : 0 ≤ dist2 p q :=
  add_nonneg (sq_nonneg _) (sq_nonneg _)

lemma scoreBullseye_unfold (p : Point) :
    scoreBullseye p =
      if dist2 p bullseyeCenter ≤ 120 ^ 2 then 10
      else if dist2 p bullseyeCenter ≤ 220 ^ 2 then 9
      else if dist2 p bullseyeCenter ≤ 320 ^ 2 then 8
      else if dist2 p bullseyeCenter ≤ 420 ^ 2 then 7
      else 6 := rfl

lemma score_iff (p : Point) :
    (scoreBullseye p = 10 ↔ dist2 p bullseyeCenter ≤ 14400) ∧
    (scoreBullseye p = 9 ↔
      14400 < dist2 p bullseyeCenter ∧ dist2 p bullseyeCenter ≤ 48400) ∧
    (scoreBullseye p = 8 ↔
      48400 < dist2 p bullseyeCenter ∧ dist2 p bullseyeCenter ≤ 102400) ∧
    (scoreBullseye p = 7 ↔
      102400 < dist2 p bullseyeCenter ∧ dist2 p bullseyeCenter ≤ 176400) ∧
    (scoreBullseye p = 6 ↔ 176400 < dist2 p bullseyeCenter) := by
  rw [scoreBullseye_unfold p]
  split_ifs with h1 h2 h3 h4
  · norm_num at h1
    exact ⟨iff_of_true rfl h1,
      iff_of_false (by decide) (by rintro ⟨a, -⟩; linarith),
      iff_of_false (by decide) (by rintro ⟨a, -⟩; linarith),
      iff_of_false (by decide) (by rintro ⟨a, -⟩; linarith),
      iff_of_false (by decide) (by intro a; linarith)⟩
  · norm_num at h1 h2
    exact ⟨iff_of_false (by decide) (by intro a; linarith),
      iff_of_true rfl ⟨h1, h2⟩,
      iff_of_false (by decide) (by rintro ⟨a, -⟩; linarith),
      iff_of_false (by decide) (by rintro ⟨a, -⟩; linarith),
      iff_of_false (by decide) (by intro a; linarith)⟩
  · norm_num at h1 h2 h3
    exact ⟨iff_of_false (by decide) (by intro a; linarith),
      iff_of_false (by decide) (by rintro ⟨-, b⟩; linarith),
      iff_of_true rfl ⟨h2, h3⟩,
      iff_of_false (by decide) (by rintro ⟨a, -⟩; linarith),
      iff_of_false (by decide) (by intro a; linarith)⟩
  · norm_num at h1 h2 h3 h4
    exact ⟨iff_of_false (by decide) (by intro a; linarith),
      iff_of_false (by decide) (by rintro ⟨-, b⟩; linarith),
      iff_of_false (by decide) (by rintro ⟨-, b⟩; linarith),
      iff_of_true rfl ⟨h3, h4⟩,
      iff_of_false (by decide) (by intro a; linarith)⟩
  · norm_num at h1 h2 h3 h4
    exact ⟨iff_of_false (by decide) (by intro a; linarith),
      iff_of_false (by decide) (by rintro ⟨-, b⟩; linarith),
      iff_of_false (by decide) (by rintro ⟨-, b⟩; linarith),
      iff_of_false (by decide) (by rintro ⟨-, b⟩; linarith),
      iff_of_true rfl h4⟩

lemma euclid_le_iff (p q : Point) (r : ℚ) (hr : (0:ℝ) ≤ (r:ℝ)) :
    euclid p q ≤ (r:ℝ) ↔ dist2 p q ≤ r ^ 2 := by
  rw [euclid, Real.sqrt_le_left hr]
  constructor <;> intro h <;> exact_mod_cast h

lemma lt_euclid_iff (p q : Point) (r : ℚ) (hr : (0:ℝ) ≤ (r:ℝ)) :
    (r:ℝ) < euclid p q ↔ r ^ 2 < dist2 p q := by
  rw [euclid, Real.lt_sqrt hr]
  constructor <;> intro h <;> exact_mod_cast h

/-- C1: for every target-plane point `p`, `scoreBullseye` returns the points
value of the first ring, in ascending radius order, whose radius is at least
the Euclidean distance from `p` to the target center `(450,600)`, and the last
points entry `6` as the catch-all beyond every ring; this is stated as the
complete band characterization of the score by the distance, together with
the three concrete instances of the spec (distance 50 scores 10, distance 150
scores 9, distance 450 scores 6). -/
theorem scoreBullseye_ring_bands (p : Point) :
    (scoreBullseye p = 10 ↔ euclid p bullseyeCenter ≤ 120) ∧
    (scoreBullseye p = 9 ↔
      120 < euclid p bullseyeCenter ∧ euclid p bullseyeCenter ≤ 220) ∧
    (scoreBullseye p = 8 ↔
      220 < euclid p bullseyeCenter ∧ euclid p bullseyeCenter ≤ 320) ∧
    (scoreBullseye p = 7 ↔
      320 < euclid p bullseyeCenter ∧ euclid p bullseyeCenter ≤ 420) ∧
    (scoreBullseye p = 6 ↔ 420 < euclid p bullseyeCenter) ∧
    euclid (500, 600) bullseyeCenter = 50 ∧ scoreBullseye (500, 600) = 10 ∧
    euclid (600, 600) bullseyeCenter = 150 ∧ scoreBullseye (600, 600) = 9 ∧
    euclid (900, 600) bullseyeCenter = 450 ∧ scoreBullseye (900, 600) = 6 := by
  obtain ⟨i10, i9, i8, i7, i6⟩ := score_iff p
  have b120 := euclid_le_iff p bullseyeCenter 120 (by norm_num)
  have b220 := euclid_le_iff p bullseyeCenter 220 (by norm_num)
  have b320 := euclid_le_iff p bullseyeCenter 320 (by norm_num)
  have b420 := euclid_le_iff p bullseyeCenter 420 (by norm_num)
  have c120 := lt_euclid_iff p bullseyeCenter 120 (by norm_num)
  have c220 := lt_euclid_iff p bullseyeCenter 220 (by norm_num)
  have c320 := lt_euclid_iff p bullseyeCenter 320 (by norm_num)
  have c420 := lt_euclid_iff p bullseyeCenter 420 (by norm_num)
  norm_num at b120 b220 b320 b420 c120 c220 c320 c420
  have e50 : euclid (500, 600) bullseyeCenter = 50 := by
    rw [euclid]
    norm_num [dist2, bullseyeCenter]
    rw [show (2500:ℝ) = 50 ^ 2 by norm_num, Real.sqrt_sq (by norm_num)]
  have e150 : euclid (600, 600) bullseyeCenter = 150 := by
    rw [euclid]
    norm_num [dist2, bullseyeCenter]
    rw [show (22500:ℝ) = 150 ^ 2 by norm_num, Real.sqrt_sq (by norm_num)]
  have e450 : euclid (900, 600) bullseyeCenter = 450 := by
    rw [euclid]
    norm_num [dist2, bullseyeCenter]
    rw [show (202500:ℝ) = 450 ^ 2 by norm_num, Real.sqrt_sq (by norm_num)]
  refine ⟨?_, ?_, ?_, ?_, ?_, e50, ?_, e150, ?_, e450, ?_⟩
  · rw [i10, ← b120]
  · rw [i9, ← c120, ← b220]
  · rw [i8, ← c220, ← b320]
  · rw [i7, ← c320, ← b420]
  · rw [i6, ← c420]
  · norm_num [scoreBullseye, ringScore, dist2, bullseyeCenter, bullseyeRings,
      bullseyePoints]
  · norm_num [scoreBullseye, ringScore, dist2, bullseyeCenter, bullseyeRings,
      bullseyePoints]
  · norm_num [scoreBullseye, ringScore, dist2, bullseyeCenter, bullseyeRings,
      bullseyePoints]

/-- C4: manual corner calibration builds the homography from exactly 4 tap
points in tap order, with no reordering or validation: tap 1 maps to (0,0),
tap 2 to (900,0), tap 3 to (900,1200), tap 4 to (0,1200) of the 900×1200
virtual rectangle; and in the identity case (taps at the four corners
themselves) the identity matrix realizes the transform and maps (0,0) to
(0,0) and (900,1200) to (900,1200) exactly. -/
theorem manualCalib_tap_order (t1 t2 t3 t4 : Point) :
    fourTaps t1 t2 t3 t4 = (false, [], some ![t1, t2, t3, t4]) ∧
    (∀ M : H3, IsPerspectiveTransform M ![t1, t2, t3, t4] dstCorners →
      applyH M t1 = (0, 0) ∧ applyH M t2 = (900, 0) ∧
      applyH M t3 = (900, 1200) ∧ applyH M t4 = (0, 1200)) ∧
    IsPerspectiveTransform H3.id dstCorners dstCorners ∧
    applyH H3.id (0, 0) = (0, 0) ∧ applyH H3.id (900, 1200) = (900, 1200) := by
  refine ⟨rfl, fun M h => ⟨(h 0).2, (h 1).2, (h 2).2, (h 3).2⟩, ?_, ?_, ?_⟩
  · intro k
    fin_cases k <;>
      refine ⟨by norm_num [H3.w, H3.id, dstCorners, warpSize], ?_⟩ <;>
      norm_num [applyH, H3.w, H3.id, dstCorners, warpSize, Prod.ext_iff]
  · norm_num [applyH, H3.w, H3.id, Prod.ext_iff]
  · norm_num [applyH, H3.w, H3.id, Prod.ext_iff]

/-- C4 witness: the identity-case instance of `manualCalib_tap_order`, with
the four corner taps and the identity matrix. -/
theorem manualCalib_tap_order_witness :
    applyH H3.id (0, 0) = (0, 0) ∧ applyH H3.id (900, 1200) = (900, 1200) := by
  have h := manualCalib_tap_order (0, 0) (900, 0) (900, 1200) (0, 1200)
  have h2 := h.2.1 H3.id
  have hid : IsPerspectiveTransform H3.id ![(0, 0), (900, 0), (900, 1200), (0, 1200)]
      dstCorners := h.2.2.1
  exact ⟨(h2 hid).1, (h2 hid).2.2.1⟩

lemma reduceMinBy_mem (f : Point → ℚ) (l : List Point) :
    ∀ a, reduceMinBy f a l ∈ a :: l := by
  induction l with
  | nil => intro a; simp [reduceMinBy]
  | cons b rest ih =>
    intro a
    have h := ih (if f a < f b then a else b)
    rcases List.mem_cons.1 h with h1 | h1
    · rw [reduceMinBy, h1]
      split_ifs <;> simp
    · exact List.mem_cons.2 (Or.inr (List.mem_cons.2 (Or.inr (by
        rw [reduceMinBy]; exact h1))))

lemma reduceMinBy_le (f : Point → ℚ) (l : List Point) :
    ∀ a, ∀ z ∈ a :: l, f (reduceMinBy f a l) ≤ f z := by
  induction l with
  | nil =>
    intro a z hz
    rcases List.mem_cons.1 hz with h | h
    · rw [reduceMinBy, h]
    · simp at h
  | cons b rest ih =>
    intro a z hz
    have step : f (if f a < f b then a else b) ≤ f a ∧
        f (if f a < f b then a else b) ≤ f b := by
      split_ifs with h
      · exact ⟨le_refl _, le_of_lt h⟩
      · exact ⟨le_of_not_lt h, le_refl _⟩
    rcases List.mem_cons.1 hz with h1 | h1
    · rw [reduceMinBy, h1]
      exact le_trans (ih _ _ (List.mem_cons_self _ _)) step.1
    · rcases List.mem_cons.1 h1 with h2 | h2
      · rw [reduceMinBy, h2]
        exact le_trans (ih _ _ (List.mem_cons_self _ _)) step.2
      · rw [reduceMinBy]
        exact ih _ _ (List.mem_cons.2 (Or.inr h2))

lemma reduceMaxBy_mem (f : Point → ℚ) (l : List Point) :
    ∀ a, reduceMaxBy f a l ∈ a :: l := by
  induction l with
  | nil => intro a; simp [reduceMaxBy]
  | cons b rest ih =>
    intro a
    have h := ih (if f a > f b then a else b)
    rcases List.mem_cons.1 h with h1 | h1
    · rw [reduceMaxBy, h1]
      split_ifs <;> simp
    · exact List.mem_cons.2 (Or.inr (List.mem_cons.2 (Or.inr (by
        rw [reduceMaxBy]; exact h1))))

lemma reduceMaxBy_ge (f : Point → ℚ) (l : List Point) :
    ∀ a, ∀ z ∈ a :: l, f z ≤ f (reduceMaxBy f a l) := by
  induction l with
  | nil =>
    intro a z hz
    rcases List.mem_cons.1 hz with h | h
    · rw [reduceMaxBy, h]
    · simp at h
  | cons b rest ih =>
    intro a z hz
    have step : f a ≤ f (if f a > f b then a else b) ∧
        f b ≤ f (if f a > f b then a else b) := by
      split_ifs with h
      · exact ⟨le_refl _, le_of_lt h⟩
      · exact ⟨le_of_not_lt h, le_refl _⟩
    rcases List.mem_cons.1 hz with h1 | h1
    · rw [reduceMaxBy, h1]
      exact le_trans step.1 (ih _ _ (List.mem_cons_self _ _))
    · rcases List.mem_cons.1 h1 with h2 | h2
      · rw [reduceMaxBy, h2]
        exact le_trans step.2 (ih _ _ (List.mem_cons_self _ _))
      · rw [reduceMaxBy]
        exact ih _ _ (List.mem_cons.2 (Or.inr h2))

/-- C5: for at least 4 gathered corner points, `hullHomography` selects the
point with minimum x+y as TL, maximum x+y as BR, minimum x−y as TR and
maximum x−y as BL, and builds the homography sending TL to (0,0), TR to
(900,0), BR to (900,1200) and BL to (0,1200) — the four extremes to the
virtual rectangle corners matching their roles. With fewer than 4 points it
produces no homography (and count 0). In the produced quadruple `q`,
`q 0, q 1, q 2, q 3` are `srcTri`s `tl, tr, br, bl` in source order. -/
theorem hullHomography_extremes (pts : List Point) :
    (pts.length < 4 → hullHomography pts = (none, 0)) ∧
    (4 ≤ pts.length → ∃ q : Fin 4 → Point,
      hullHomography pts = (some q, 4) ∧
      q 0 ∈ pts ∧ (∀ z ∈ pts, sumC (q 0) ≤ sumC z) ∧
      q 2 ∈ pts ∧ (∀ z ∈ pts, sumC z ≤ sumC (q 2)) ∧
      q 1 ∈ pts ∧ (∀ z ∈ pts, difC (q 1) ≤ difC z) ∧
      q 3 ∈ pts ∧ (∀ z ∈ pts, difC z ≤ difC (q 3)) ∧
      (∀ M : H3, IsPerspectiveTransform M q dstCorners →
        applyH M (q 0) = (0, 0) ∧ applyH M (q 1) = (900, 0) ∧
        applyH M (q 2) = (900, 1200) ∧ applyH M (q 3) = (0, 1200))) := by
  cases pts with
  | nil => exact ⟨fun _ => rfl, fun h => absurd h (by norm_num)⟩
  | cons p rest =>
    constructor
    · intro h
      simp only [hullHomography]
      rw [if_pos h]
    · intro h
      have hlen : ¬ (p :: rest).length < 4 := by omega
      refine ⟨![reduceMinBy sumC p rest, reduceMinBy difC p rest,
          reduceMaxBy sumC p rest, reduceMaxBy difC p rest],
        by simp only [hullHomography]; rw [if_neg hlen],
        ?_, ?_, ?_, ?_, ?_, ?_, ?_, ?_, ?_⟩
      · exact reduceMinBy_mem sumC rest p
      · exact reduceMinBy_le sumC rest p
      · exact reduceMaxBy_mem sumC rest p
      · exact reduceMaxBy_ge sumC rest p
      · exact reduceMinBy_mem difC rest p
      · exact reduceMinBy_le difC rest p
      · exact reduceMaxBy_mem difC rest p
      · exact reduceMaxBy_ge difC rest p
      · exact fun M hM => ⟨(hM 0).2, (hM 1).2, (hM 2).2, (hM 3).2⟩

/-- C5 witness: a list of one point yields no homography, and the four
rectangle corners yield one. -/
theorem hullHomography_extremes_witness :
    hullHomography [(5, 5)] = (none, 0) ∧
    (hullHomography [(0, 0), (900, 0), (900, 1200), (0, 1200)]).2 = 4 := by
  have h1 := (hullHomography_extremes [(5, 5)]).1 (by norm_num)
  have h2 := (hullHomography_extremes
    [(0, 0), (900, 0), (900, 1200), (0, 1200)]).2 (by norm_num)
  obtain ⟨q, hq, -⟩ := h2
  exact ⟨h1, by rw [hq]⟩

lemma countSummary_append (a b : List GEvent) :
    countSummary (a ++ b) = countSummary a + countSummary b := by
  induction a with
  | nil => simp [countSummary]
  | cons e rest ih =>
    cases e with
    | hit p sc => simp [countSummary, ih]
    | summary t a =>
      simp [countSummary, ih]
      omega

lemma countHit_append (a b : List GEvent) :
    countHit (a ++ b) = countHit a + countHit b := by
  induction a with
  | nil => simp [countHit]
  | cons e rest ih =>
    cases e with
    | hit p sc =>
      simp [countHit, ih]
      omega
    | summary t a => simp [countHit, ih]

lemma frameStep_not_running (G : ℕ) (s : GameState) (inp : FrameInput)
    (hr : s.running = false) : frameStep G s inp = (s, []) := by
  simp [frameStep, hr]

lemma runGame_not_running (G : ℕ) (l : List FrameInput) :
    ∀ s : GameState, s.running = false → runGame G s l = (s, []) := by
  induction l with
  | nil => intro s _; rfl
  | cons inp rest ih =>
    intro s hr
    simp only [runGame, frameStep_not_running G s inp hr]
    simp [ih s hr]

lemma frameStep_char (G : ℕ) (s : GameState) (inp : FrameInput)
    (hr : s.running = true) :
    frameStep G s inp = (s, []) ∨
    (∃ ptW,
      (G ≤ s.shotsFired + 1 ∧
        frameStep G s inp =
          (⟨false, s.shotsFired + 1, s.totalScore + scoreBullseye ptW, inp.now⟩,
           [GEvent.hit ptW (scoreBullseye ptW),
            GEvent.summary (s.totalScore + scoreBullseye ptW)
              ((s.totalScore + scoreBullseye ptW) / (G : ℚ))])) ∨
      (s.shotsFired + 1 < G ∧
        frameStep G s inp =
          (⟨true, s.shotsFired + 1, s.totalScore + scoreBullseye ptW, inp.now⟩,
           [GEvent.hit ptW (scoreBullseye ptW)]))) := by
  rcases inp with ⟨now, hit, Hm, sx, sy⟩
  cases hit with
  | none => left; cases Hm <;> simp [frameStep, hr]
  | some c =>
    cases Hm with
    | none => left; simp [frameStep, hr]
    | some M =>
      by_cases hdb : 120 < now - s.lastHitTs
      · by_cases hfin : G ≤ s.shotsFired + 1
        · exact Or.inr ⟨applyH M (c.1 * sx, c.2 * sy),
            Or.inl ⟨hfin, by simp [frameStep, hr, hdb, hfin]⟩⟩
        · exact Or.inr ⟨applyH M (c.1 * sx, c.2 * sy),
            Or.inr ⟨by omega, by simp [frameStep, hr, hdb, hfin]⟩⟩
      · left; simp [frameStep, hr, hdb]

lemma runGame_spec (G : ℕ) (l : List FrameInput) :
    ∀ s : GameState, s.running = true → s.shotsFired < G →
      (runGame G s l).1.shotsFired ≤ G ∧
      ((runGame G s l).1.running = true → (runGame G s l).1.shotsFired < G) ∧
      countHit (runGame G s l).2 + s.shotsFired = (runGame G s l).1.shotsFired ∧
      countSummary (runGame G s l).2 =
        (if (runGame G s l).1.running = true then 0 else 1) ∧
      ((runGame G s l).1.running = false → (runGame G s l).1.shotsFired = G) := by
  induction l with
  | nil =>
    intro s hr hs
    simp only [runGame, hr, countHit, countSummary]
    exact ⟨le_of_lt hs, fun _ => hs, by omega, by simp [hr], by simp [hr]⟩
  | cons inp rest ih =>
    intro s hr hs
    rcases frameStep_char G s inp hr with hstep | ⟨ptW, ⟨hfin, hstep⟩ | ⟨hlt, hstep⟩⟩
    · have h := ih s hr hs
      simp only [runGame, hstep]
      simpa using h
    · simp only [runGame, hstep]
      rw [runGame_not_running G rest _ rfl]
      dsimp only
      refine ⟨?_, ?_, ?_, ?_, ?_⟩
      · omega
      · intro hcontra
        simp at hcontra
      · simp [countHit]
        omega
      · simp [countSummary]
      · intro hstop
        omega
    · have h := ih ⟨true, s.shotsFired + 1,
        s.totalScore + scoreBullseye ptW, inp.now⟩ rfl hlt
      simp only [runGame, hstep]
      refine ⟨h.1, h.2.1, ?_, ?_, h.2.2.2.2⟩
      · have h3 := h.2.2.1
        simp only [countHit_append, List.append_eq, List.cons_append, List.nil_append, countHit] at h3 ⊢
        omega
      · have h4 := h.2.2.2.1
        simp only [countSummary_append, List.append_eq, List.cons_append, List.nil_append, countSummary] at h4 ⊢
        exact h4

/-- C2: in every session with shot goal `G ≥ 1` (started by `startFlow`,
which clears the counters and sets `running`), the accepted-hit count never
exceeds `G`; the end-of-session summary is emitted exactly once, at the
moment the count reaches `G` and never before (zero summaries over any
prefix that has not reached the goal); once it fires the loop stops
(`running = false` exactly when the count is `G`), and a stopped loop scores
nothing further (every iteration is a no-op). Each accepted hit emits
exactly one hit event, so the hit-event count equals the final shot count. -/
theorem session_goal_summary_once (G : ℕ) (hG : 1 ≤ G) (t0 : ℚ)
    (inputs : List FrameInput) :
    (runGame G (initSession t0) inputs).1.shotsFired ≤ G ∧
    ((runGame G (initSession t0) inputs).1.running = false ↔
      (runGame G (initSession t0) inputs).1.shotsFired = G) ∧
    countSummary (runGame G (initSession t0) inputs).2 =
      (if (runGame G (initSession t0) inputs).1.shotsFired = G then 1 else 0) ∧
    countHit (runGame G (initSession t0) inputs).2 =
      (runGame G (initSession t0) inputs).1.shotsFired ∧
    (∀ pre suf, inputs = pre ++ suf →
      (runGame G (initSession t0) pre).1.shotsFired < G →
      countSummary (runGame G (initSession t0) pre).2 = 0) ∧
    (∀ s : GameState, s.running = false → ∀ inp, frameStep G s inp = (s, [])) := by
  have h := runGame_spec G inputs (initSession t0) rfl (by simpa [initSession] using hG)
  have hiff : (runGame G (initSession t0) inputs).1.running = false ↔
      (runGame G (initSession t0) inputs).1.shotsFired = G := by
    constructor
    · exact h.2.2.2.2
    · intro hsh
      by_contra hrun
      have htrue : (runGame G (initSession t0) inputs).1.running = true := by
        cases hv : (runGame G (initSession t0) inputs).1.running
        · exact absurd hv hrun
        · rfl
      have := h.2.1 htrue
      omega
  refine ⟨h.1, hiff, ?_, ?_, ?_, fun s hs inp => frameStep_not_running G s inp hs⟩
  · rcases hv : (runGame G (initSession t0) inputs).1.running with _ | _
    · rw [if_pos (hiff.1 hv)]
      simpa [hv] using h.2.2.2.1
    · have hne : (runGame G (initSession t0) inputs).1.shotsFired ≠ G := by
        intro hsh
        rw [hiff.2 hsh] at hv
        cases hv
      rw [if_neg hne]
      simpa [hv] using h.2.2.2.1
  · have h5 := h.2.2.1
    dsimp only [initSession] at h5 ⊢
    omega
  · intro pre suf hsplit hlt
    have hp := runGame_spec G pre (initSession t0) rfl
      (by simpa [initSession] using hG)
    have hrun : (runGame G (initSession t0) pre).1.running = true := by
      cases hv : (runGame G (initSession t0) pre).1.running
      · have := hp.2.2.2.2 hv
        omega
      · rfl
    simpa [hrun] using hp.2.2.2.1

/-- C2 witness: goal 3, empty input trace — no summary is emitted before any
hit is recorded. -/
theorem session_goal_summary_once_witness :
    countSummary (runGame 3 (initSession 0) []).2 = 0 := by
  have h := session_goal_summary_once 3 (by norm_num) 0 []
  have h3 := h.2.2.1
  simp only [runGame, initSession, countSummary] at h3
  simp only [runGame, initSession, countSummary]

/-- C3: in an iteration where the loop is running, a centroid was detected
and a homography is published, the hit is accepted (scored, counted, one hit
event emitted, debounce clock restamped) exactly when strictly more than
120 ms of wall clock have passed since the last accepted hit; otherwise the
iteration leaves the whole state unchanged and emits nothing. Concretely,
two detections 50 ms apart yield exactly one hit event and two detections
150 ms apart yield exactly two. -/
theorem debounce_window (G : ℕ) (s : GameState) (inp : FrameInput)
    (c : Point) (M : H3) (hr : s.running = true) (hc : inp.hit = some c)
    (hM : inp.Hmat = some M) :
    (120 < inp.now - s.lastHitTs →
      (frameStep G s inp).1.shotsFired = s.shotsFired + 1 ∧
      (frameStep G s inp).1.lastHitTs = inp.now ∧
      (frameStep G s inp).1.totalScore =
        s.totalScore + scoreBullseye (applyH M (c.1 * inp.sx, c.2 * inp.sy)) ∧
      countHit (frameStep G s inp).2 = 1) ∧
    (inp.now - s.lastHitTs ≤ 120 → frameStep G s inp = (s, [])) ∧
    countHit (runGame 10 (initSession 0)
      [⟨1000, some (0, 0), some H3.id, 1, 1⟩,
       ⟨1050, some (0, 0), some H3.id, 1, 1⟩]).2 = 1 ∧
    countHit (runGame 10 (initSession 0)
      [⟨1000, some (0, 0), some H3.id, 1, 1⟩,
       ⟨1150, some (0, 0), some H3.id, 1, 1⟩]).2 = 2 := by
  rcases inp with ⟨now, hit, Hm, sx, sy⟩
  cases hc
  cases hM
  refine ⟨?_, ?_, ?_, ?_⟩
  · intro hdb
    by_cases hfin : G ≤ s.shotsFired + 1 <;>
      simp [frameStep, hr, hdb, hfin, countHit]
  · intro hdb
    have hdb2 : ¬ 120 < now - s.lastHitTs := not_lt.2 hdb
    simp [frameStep, hr, hdb2]
  · norm_num [runGame, frameStep, initSession, countHit, applyH, H3.w, H3.id,
      scoreBullseye, ringScore, dist2, bullseyeCenter, bullseyeRings,
      bullseyePoints]
  · norm_num [runGame, frameStep, initSession, countHit, applyH, H3.w, H3.id,
      scoreBullseye, ringScore, dist2, bullseyeCenter, bullseyeRings,
      bullseyePoints]

/-- C3 witness: a concrete accepted first hit — running state, detection at
t = 1000 with the identity homography, last accepted hit stamped at 0. -/
theorem debounce_window_witness :
    (frameStep 10 ⟨true, 0, 0, 0⟩ ⟨1000, some (0, 0), some H3.id, 1, 1⟩).1.shotsFired = 1 ∧
    (frameStep 10 ⟨true, 0, 0, 0⟩ ⟨500, some (0, 0), some H3.id, 1, 1⟩).1.shotsFired = 1 := by
  have h1 := debounce_window 10 ⟨true, 0, 0, 0⟩ ⟨1000, some (0, 0), some H3.id, 1, 1⟩
    (0, 0) H3.id rfl rfl rfl
  have h2 := debounce_window 10 ⟨true, 0, 0, 0⟩ ⟨500, some (0, 0), some H3.id, 1, 1⟩
    (0, 0) H3.id rfl rfl rfl
  exact ⟨(h1.1 (by norm_num)).1, (h2.1 (by norm_num)).1⟩

lemma calibTick_failed (s : CalibState) (now : ℚ)
    (markers : List (Fin 4 → Point)) (sx sy : ℚ) (sqEnabled : Bool)
    (sqRes : Option (Fin 4 → Point) × ℕ) (hm : markers.length < 2)
    (hsq : sqEnabled = false ∨ sqRes.1 = none) :
    calibTick s now markers sx sy sqEnabled sqRes =
      ⟨s.Hpub, s.lastHTime, s.lossStreak,
       if sqEnabled then CalibStatus.seekingSquares
       else CalibStatus.markers markers.length false⟩ := by
  have hres : detectMarkersAndHomography markers sx sy = (none, markers.length) := by
    simp [detectMarkersAndHomography, hm]
  cases sqEnabled with
  | false => simp [calibTick, hres]
  | true =>
    have hnone : sqRes.1 = none := by
      rcases hsq with h | h
      · cases h
      · exact h
    simp [calibTick, hres, hnone]

lemma applyCalibOp_failed (s : CalibState) (op : CalibOp) (h : op.failed) :
    (applyCalibOp s op).Hpub = s.Hpub ∧
    (applyCalibOp s op).lastHTime = s.lastHTime := by
  cases op with
  | tick now markers sx sy sqEnabled sqRes =>
    rw [applyCalibOp, calibTick_failed s now markers sx sy sqEnabled sqRes h.1 h.2]
    exact ⟨rfl, rfl⟩
  | frameCheck now =>
    rw [applyCalibOp, staleCheck]
    split_ifs <;> exact ⟨rfl, rfl⟩

lemma runCalib_failed (ops : List CalibOp) :
    ∀ s : CalibState, (∀ op ∈ ops, op.failed) →
      (runCalib s ops).Hpub = s.Hpub ∧
      (runCalib s ops).lastHTime = s.lastHTime := by
  induction ops with
  | nil => intro s _; exact ⟨rfl, rfl⟩
  | cons op rest ih =>
    intro s hall
    have h1 := applyCalibOp_failed s op (hall op (List.mem_cons_self _ _))
    have h2 := ih (applyCalibOp s op) (fun o ho => hall o (List.mem_cons.2 (Or.inr ho)))
    exact ⟨h2.1.trans h1.1, h2.2.trans h1.2⟩

/-- C8: a failed auto-calibration tick (fewer than 2 markers, and the square
fallback disabled or itself unsuccessful) leaves the published homography,
its timestamp and the loss streak exactly as they were — it only rewrites
the status line to a seeking value; the per-frame staleness check never
touches the published homography either (even past the 2-second timeout it
only grows the loss streak and degrades the status to Reacquiring); over any
sequence of failed ticks and staleness checks the published homography and
its timestamp are preserved; and only the explicit recalibration request
discards the homography. -/
theorem failed_tick_keeps_homography (s : CalibState) (now : ℚ)
    (markers : List (Fin 4 → Point)) (sx sy : ℚ) (sqEnabled : Bool)
    (sqRes : Option (Fin 4 → Point) × ℕ) (hm : markers.length < 2)
    (hsq : sqEnabled = false ∨ sqRes.1 = none) :
    (calibTick s now markers sx sy sqEnabled sqRes).Hpub = s.Hpub ∧
    (calibTick s now markers sx sy sqEnabled sqRes).lastHTime = s.lastHTime ∧
    (calibTick s now markers sx sy sqEnabled sqRes).lossStreak = s.lossStreak ∧
    (calibTick s now markers sx sy sqEnabled sqRes).status =
      (if sqEnabled then CalibStatus.seekingSquares
       else CalibStatus.markers markers.length false) ∧
    (∀ (s2 : CalibState) (t : ℚ), (staleCheck s2 t).Hpub = s2.Hpub ∧
      (staleCheck s2 t).lastHTime = s2.lastHTime) ∧
    (∀ (s2 : CalibState) (t : ℚ), s2.Hpub.isNone ∨ 2000 < t - s2.lastHTime →
      60 < s2.lossStreak + 1 → (staleCheck s2 t).status = CalibStatus.reacquiring) ∧
    (∀ ops : List CalibOp, (∀ op ∈ ops, op.failed) →
      (runCalib s ops).Hpub = s.Hpub ∧ (runCalib s ops).lastHTime = s.lastHTime) ∧
    (recalibRequest s).Hpub = none := by
  rw [calibTick_failed s now markers sx sy sqEnabled sqRes hm hsq]
  refine ⟨rfl, rfl, rfl, rfl, ?_, ?_, fun ops h => runCalib_failed ops s h, rfl⟩
  · intro s2 t
    rw [staleCheck]
    split_ifs <;> exact ⟨rfl, rfl⟩
  · intro s2 t hcond hstreak
    rw [staleCheck, if_pos hcond]
    simp [hstreak]

/-- C8 witness: a concrete failed tick (no markers, fallback disabled) on a
state holding a published homography keeps that homography in place. -/
theorem failed_tick_keeps_homography_witness :
    (calibTick ⟨some dstCorners, 5, 3, CalibStatus.markers 4 true⟩ 9000 [] 1 1
      false (none, 0)).Hpub = some dstCorners ∧
    (staleCheck ⟨some dstCorners, 5, 3, CalibStatus.markers 4 true⟩ 9000).Hpub =
      some dstCorners := by
  have h := failed_tick_keeps_homography
    ⟨some dstCorners, 5, 3, CalibStatus.markers 4 true⟩ 9000 [] 1 1 false
    (none, 0) (by norm_num) (Or.inl rfl)
  exact ⟨h.1, (h.2.2.2.2.1 _ 9000).1⟩

lemma maskGet_zero (m : Mask) (hm : maskZero m) (x y : ℕ) : maskGet m x y = 0 := by
  unfold maskGet
  rcases lt_or_ge y m.length with hy | hy
  · rw [List.getD_eq_getElem _ _ hy]
    have hrow := hm m[y] (List.getElem_mem hy)
    rcases lt_or_ge x m[y].length with hx | hx
    · rw [List.getD_eq_getElem _ _ hx]
      exact hrow _ (List.getElem_mem hx)
    · exact List.getD_eq_default _ _ hx
  · rw [List.getD_eq_default _ _ hy]
    rfl

lemma satSub_self (m : Mask) : maskZero (satSub m m) := by
  intro row hrow v hv
  unfold satSub at hrow
  rw [List.zipWith_same] at hrow
  rcases List.mem_map.1 hrow with ⟨r0, hr0, hr0eq⟩
  rw [← hr0eq] at hv
  rw [List.zipWith_same] at hv
  rcases List.mem_map.1 hv with ⟨a, ha, haeq⟩
  omega

lemma validBlobs_zero_nil (m : Mask) (blobs : List Blob) (hm : maskZero m)
    (hv : ValidBlobs m blobs) : blobs = [] := by
  cases blobs with
  | nil => rfl
  | cons b rest =>
    have hb := hv b (List.mem_cons_self _ _)
    rcases hx : b.pixels with _ | ⟨q, qs⟩
    · exact absurd hx hb.1
    · have hq := hb.2 q (by rw [hx]; exact List.mem_cons_self _ _)
      exact absurd (maskGet_zero m hm q.1 q.2) hq

lemma detectCore_steady (hsvFn : RGB → HSV) (blobsOf : Mask → List Blob)
    (hv : ∀ m, ValidBlobs m (blobsOf m)) (minA sens : Option ℚ) (f : Frame) :
    detectCore hsvFn blobsOf minA sens (some (colorSegment hsvFn f)) f =
      (none, colorSegment hsvFn f) := by
  unfold detectCore
  dsimp only
  rw [validBlobs_zero_nil (satSub (colorSegment hsvFn f) (colorSegment hsvFn f))
    (blobsOf (satSub (colorSegment hsvFn f) (colorSegment hsvFn f)))
    (satSub_self _) (hv _)]
  rfl

lemma detectRun_steady (hsvFn : RGB → HSV) (blobsOf : Mask → List Blob)
    (hv : ∀ m, ValidBlobs m (blobsOf m)) (minA sens : Option ℚ) (f : Frame) :
    ∀ n : ℕ,
      (detectRun hsvFn blobsOf minA sens (some (colorSegment hsvFn f))
        (List.replicate n f)).1 = List.replicate n none ∧
      (detectRun hsvFn blobsOf minA sens (some (colorSegment hsvFn f))
        (List.replicate n f)).2 = some (colorSegment hsvFn f) := by
  intro n
  induction n with
  | zero => exact ⟨rfl, rfl⟩
  | succ k ih =>
    rw [List.replicate_succ]
    simp only [detectRun, detectCore_steady hsvFn blobsOf hv minA sens f]
    exact ⟨by rw [ih.1, List.replicate_succ], ih.2⟩

/-- C7: on the first call there is no stored mask, so no detection is
produced and the current mask is stored as history; the saturating per-pixel
subtraction of two equal masks is an all-zero mask; the current mask
unconditionally replaces the stored one after every call; and over any
number of frames with identical pixel content no detection is ever produced
(steady-state red is suppressed). -/
theorem temporal_differ_steady_state (hsvFn : RGB → HSV)
    (blobsOf : Mask → List Blob) (hv : ∀ m, ValidBlobs m (blobsOf m))
    (minA sens : Option ℚ) (f : Frame) (n : ℕ) :
    detectCore hsvFn blobsOf minA sens none f = (none, colorSegment hsvFn f) ∧
    (∀ m : Mask, maskZero (satSub m m)) ∧
    (∀ (prev : Option Mask) (g : Frame),
      (detectCore hsvFn blobsOf minA sens prev g).2 = colorSegment hsvFn g) ∧
    (detectRun hsvFn blobsOf minA sens none (List.replicate n f)).1 =
      List.replicate n none := by
  refine ⟨rfl, satSub_self, ?_, ?_⟩
  · intro prev g
    cases prev <;> rfl
  · cases n with
    | zero => rfl
    | succ k =>
      rw [List.replicate_succ]
      simp only [detectRun]
      have h1 : detectCore hsvFn blobsOf minA sens none f =
          (none, colorSegment hsvFn f) := rfl
      rw [h1]
      dsimp only
      rw [(detectRun_steady hsvFn blobsOf hv minA sens f k).1,
        List.replicate_succ]

lemma wholeBlobs_valid : ∀ m : Mask, ValidBlobs m (wholeBlobs m) := by
  intro m b hb
  unfold wholeBlobs at hb
  split at hb
  · simp at hb
  · next hne =>
    rcases List.mem_singleton.1 hb with rfl
    constructor
    · intro hnil
      rw [List.isEmpty_iff] at hne
      exact hne (by simpa using hnil)
    · intro q hq
      simp only [wholeBlobPts, List.mem_flatMap, List.mem_filterMap,
        List.mem_range] at hq
      rcases hq with ⟨y, -, x, -, hx⟩
      by_cases hz : maskGet m x y ≠ 0
      · rw [if_pos hz] at hx
        cases hx
        exact hz
      · rw [if_neg hz] at hx
        cases hx

/-- C7 witness: two identical frames from scratch produce no detection at
either call, with the concrete extractor and thresholds 16/18. -/
theorem temporal_differ_steady_state_witness :
    (detectRun hsvRedC wholeBlobs (some 16) (some 18) none
      (List.replicate 2 frame5)).1 = [none, none] := by
  have h := temporal_differ_steady_state hsvRedC wholeBlobs wholeBlobs_valid
    (some 16) (some 18) frame5 2
  simpa using h.2.2.2

lemma blobCond_iff (minA sens best : ℚ) (c : Comp) :
    (aGtB (some minA) c.area && aGtB (some sens) c.area &&
      decide (best < c.area)) = true ↔
    (minA < c.area ∧ sens < c.area ∧ best < c.area) := by
  simp [aGtB, and_assoc]

lemma blobLoop_append (minA sens : Option ℚ) (l1 l2 : List Comp) :
    ∀ acc, blobLoop minA sens (l1 ++ l2) acc =
      blobLoop minA sens l2 (blobLoop minA sens l1 acc) := by
  induction l1 with
  | nil => intro acc; rfl
  | cons c rest ih =>
    intro acc
    rcases acc with ⟨pt, best⟩
    rw [List.cons_append, blobLoop, blobLoop]
    exact ih _

lemma blobLoop_skip_all (minA sens : ℚ) (l : List Comp)
    (h : ∀ c ∈ l, ¬ (minA < c.area ∧ sens < c.area)) :
    ∀ acc, blobLoop (some minA) (some sens) l acc = acc := by
  induction l with
  | nil => intro acc; rfl
  | cons c rest ih =>
    intro acc
    rcases acc with ⟨pt, best⟩
    rw [blobLoop]
    have hc := h c (List.mem_cons_self _ _)
    have hcond : (aGtB (some minA) c.area && aGtB (some sens) c.area &&
        decide (best < c.area)) = false := by
      rcases Bool.eq_false_or_eq_true (aGtB (some minA) c.area &&
        aGtB (some sens) c.area && decide (best < c.area)) with ht | hf
      · have := (blobCond_iff minA sens best c).1 ht
        exact absurd ⟨this.1, this.2.1⟩ hc
      · exact hf
    rw [hcond]
    simp only [Bool.false_eq_true, if_false]
    exact ih (fun d hd => h d (List.mem_cons.2 (Or.inr hd))) _

lemma blobLoop_src (minA sens : ℚ) (l : List Comp) :
    ∀ pt best p, (blobLoop (some minA) (some sens) l (pt, best)).1 = some p →
      pt = some p ∨ ∃ c ∈ l, minA < c.area ∧ sens < c.area ∧ c.m00 ≠ 0 ∧
        p = jsCentroid c := by
  induction l with
  | nil => intro pt best p h; exact Or.inl h
  | cons c rest ih =>
    intro pt best p h
    rw [blobLoop] at h
    rcases hcond : (aGtB (some minA) c.area && aGtB (some sens) c.area &&
        decide (best < c.area)) with _ | _
    · rw [hcond] at h
      simp only [Bool.false_eq_true, if_false] at h
      rcases ih pt best p h with h1 | ⟨d, hd, hq⟩
      · exact Or.inl h1
      · exact Or.inr ⟨d, List.mem_cons.2 (Or.inr hd), hq⟩
    · rw [hcond] at h
      simp only [if_true] at h
      have hq := (blobCond_iff minA sens best c).1 hcond
      by_cases hm : c.m00 ≠ 0
      · rw [if_pos hm] at h
        rcases ih _ _ p h with h1 | ⟨d, hd, hdq⟩
        · exact Or.inr ⟨c, List.mem_cons_self _ _, hq.1, hq.2.1, hm,
            (Option.some_inj.1 h1).symm⟩
        · exact Or.inr ⟨d, List.mem_cons.2 (Or.inr hd), hdq⟩
      · rw [if_neg hm] at h
        rcases ih pt best p h with h1 | ⟨d, hd, hdq⟩
        · exact Or.inl h1
        · exact Or.inr ⟨d, List.mem_cons.2 (Or.inr hd), hdq⟩

lemma blobLoop_best_lt (minA sens B : ℚ) (l : List Comp)
    (hl : ∀ d ∈ l, minA < d.area ∧ sens < d.area → d.area < B) :
    ∀ pt best, best < B →
      (blobLoop (some minA) (some sens) l (pt, best)).2 < B := by
  induction l with
  | nil => intro pt best hb; exact hb
  | cons c rest ih =>
    intro pt best hb
    rw [blobLoop]
    rcases hcond : (aGtB (some minA) c.area && aGtB (some sens) c.area &&
        decide (best < c.area)) with _ | _
    · simp only [Bool.false_eq_true, if_false]
      exact ih (fun d hd => hl d (List.mem_cons.2 (Or.inr hd))) pt best hb
    · simp only [if_true]
      have hq := (blobCond_iff minA sens best c).1 hcond
      have hcB : c.area < B := hl c (List.mem_cons_self _ _) ⟨hq.1, hq.2.1⟩
      by_cases hm : c.m00 ≠ 0
      · rw [if_pos hm]
        exact ih (fun d hd => hl d (List.mem_cons.2 (Or.inr hd))) _ _ hcB
      · rw [if_neg hm]
        exact ih (fun d hd => hl d (List.mem_cons.2 (Or.inr hd))) pt best hb

lemma blobLoop_keep (minA sens : ℚ) (l : List Comp) (c : Comp)
    (hl : ∀ d ∈ l, minA < d.area ∧ sens < d.area → d.area ≤ c.area) :
    blobLoop (some minA) (some sens) l (some (jsCentroid c), c.area) =
      (some (jsCentroid c), c.area) := by
  induction l with
  | nil => rfl
  | cons d rest ih =>
    rw [blobLoop]
    have hcond : (aGtB (some minA) d.area && aGtB (some sens) d.area &&
        decide (c.area < d.area)) = false := by
      rcases Bool.eq_false_or_eq_true (aGtB (some minA) d.area &&
        aGtB (some sens) d.area && decide (c.area < d.area)) with ht | hf
      · have hq := (blobCond_iff minA sens c.area d).1 ht
        have := hl d (List.mem_cons_self _ _) ⟨hq.1, hq.2.1⟩
        exact absurd hq.2.2 (not_lt.2 this)
      · exact hf
    rw [hcond]
    simp only [Bool.false_eq_true, if_false]
    exact ih (fun e he => hl e (List.mem_cons.2 (Or.inr he)))

/-- C6: the blob selector returns at most one centroid per diff mask. A
component can be selected only when its area strictly exceeds both the
minimum-area threshold and the sensitivity threshold — never when its area
is at most `max minArea sens` — and only with a nonzero `m00` moment; if no
component qualifies, no detection is returned. Among qualifying components
(with the `contourArea = |m00|` guarantee of the extraction, and nonnegative
thresholds as configured), the returned centroid is the rounded first-moment
ratio of the one with the largest area, ties resolved in favor of the first
encountered in traversal order. For two qualifying components of areas 50
and 80, the centroid of the 80-area component is returned. -/
theorem blob_selector_spec (minA sens : ℚ) (comps : List Comp) :
    ((∀ c ∈ comps, ¬ (minA < c.area ∧ sens < c.area)) →
      detectBlobs (some minA) (some sens) comps = none) ∧
    (∀ p, detectBlobs (some minA) (some sens) comps = some p →
      ∃ c ∈ comps, max minA sens < c.area ∧ c.m00 ≠ 0 ∧ p = jsCentroid c) ∧
    (0 ≤ max minA sens → (∀ d ∈ comps, |d.m00| = d.area) →
      ∀ pre c suf, comps = pre ++ c :: suf →
        minA < c.area → sens < c.area →
        (∀ d ∈ pre, minA < d.area ∧ sens < d.area → d.area < c.area) →
        (∀ d ∈ suf, minA < d.area ∧ sens < d.area → d.area ≤ c.area) →
        detectBlobs (some minA) (some sens) comps = some (jsCentroid c)) ∧
    detectBlobs (some 16) (some 18) [⟨50, 50, 500, 100⟩, ⟨80, 80, 800, 80⟩] =
      some (jsCentroid ⟨80, 80, 800, 80⟩) := by
  refine ⟨?_, ?_, ?_, ?_⟩
  · intro h
    unfold detectBlobs
    rw [blobLoop_skip_all minA sens comps h (none, 0)]
  · intro p h
    rcases blobLoop_src minA sens comps none 0 p h with h1 | ⟨c, hc, h2, h3, h4, h5⟩
    · cases h1
    · exact ⟨c, hc, max_lt h2 h3, h4, h5⟩
  · intro hthr hval pre c suf hsplit hqa hqs hpre hsuf
    subst hsplit
    have hc0 : (0:ℚ) < c.area := lt_of_le_of_lt hthr (max_lt hqa hqs)
    have hm : c.m00 ≠ 0 := by
      intro hz
      have := hval c (by simp)
      rw [hz] at this
      simp at this
      linarith
    unfold detectBlobs
    rw [blobLoop_append]
    have hb1 := blobLoop_best_lt minA sens c.area pre hpre none 0 hc0
    rcases hacc : blobLoop (some minA) (some sens) pre (none, 0) with ⟨pt1, best1⟩
    rw [hacc] at hb1
    rw [blobLoop]
    have hcond : (aGtB (some minA) c.area && aGtB (some sens) c.area &&
        decide (best1 < c.area)) = true :=
      (blobCond_iff minA sens best1 c).2 ⟨hqa, hqs, hb1⟩
    rw [hcond]
    simp only [if_true]
    rw [if_pos hm, blobLoop_keep minA sens suf c hsuf]
  · norm_num [detectBlobs, blobLoop, aGtB, jsCentroid, jsRound,
      Bool.and_eq_true, decide_eq_true_eq]

/-- C6 witness: the first-maximizer clause applied to the concrete 50/80
pair with thresholds 16/18 — the returned centroid is the rounded moment
ratio of the 80-area component, (10, 1). -/
theorem blob_selector_spec_witness :
    detectBlobs (some 16) (some 18) [⟨50, 50, 500, 100⟩, ⟨80, 80, 800, 80⟩] =
      some (10, 1) := by
  have h := blob_selector_spec 16 18 [⟨50, 50, 500, 100⟩, ⟨80, 80, 800, 80⟩]
  have h3 := h.2.2.1 (by norm_num)
    (by
      intro d hd
      simp only [List.mem_cons, List.not_mem_nil, or_false] at hd
      rcases hd with rfl | rfl <;> norm_num)
    [⟨50, 50, 500, 100⟩] ⟨80, 80, 800, 80⟩ [] rfl (by norm_num) (by norm_num)
    (by
      intro d hd
      simp only [List.mem_singleton] at hd
      subst hd
      norm_num)
    (by intro d hd; simp at hd)
  rw [h3]
  norm_num [jsCentroid, jsRound, Prod.ext_iff]

/-- C9: the red-candidate mask marks exactly the pixels that pass the HSV
test — hue in [0,12] or [160,179], saturation ≥ 110, value ≥ 170 (within the
8-bit HSV ranges of the conversion) — and whose red-minus-green channel
difference strictly exceeds 36; the 3×3 morphological opening is applied
afterwards; and the segmentation is a pure function of the frame, so equal
frames give equal masks. -/
theorem color_segmenter_spec (hsvFn : RGB → HSV)
    (h8 : ∀ px, (hsvFn px).h ≤ 179 ∧ (hsvFn px).s ≤ 255 ∧ (hsvFn px).v ≤ 255)
    (frame : Frame) :
    colorSegment hsvFn frame = open3 (rawRedMask hsvFn frame) ∧
    rawRedMask hsvFn frame =
      frame.map (fun row => row.map (redPixelMask hsvFn)) ∧
    (∀ px : RGB, redPixelMask hsvFn px =
      if ((hsvFn px).h ≤ 12 ∨ (160 ≤ (hsvFn px).h ∧ (hsvFn px).h ≤ 179)) ∧
          110 ≤ (hsvFn px).s ∧ 170 ≤ (hsvFn px).v ∧
          36 < (px.r : ℤ) - (px.g : ℤ)
      then 255 else 0) ∧
    (∀ f1 f2 : Frame, f1 = f2 →
      colorSegment hsvFn f1 = colorSegment hsvFn f2) := by
  refine ⟨rfl, rfl, ?_, fun f1 f2 h => by rw [h]⟩
  intro px
  have hb := h8 px
  unfold redPixelMask
  dsimp only
  split_ifs <;> first | decide | omega

/-- C9 witness: with the constant bright-red HSV conversion, a pure red
pixel is marked 255 and a red pixel with high green (low red-green
separation) is marked 0. -/
theorem color_segmenter_spec_witness :
    redPixelMask hsvRedC ⟨255, 0, 0⟩ = 255 ∧
    redPixelMask hsvRedC ⟨255, 250, 0⟩ = 0 := by
  have h := color_segmenter_spec hsvRedC
    (fun px => by norm_num [hsvRedC]) []
  constructor
  · rw [h.2.2.1 ⟨255, 0, 0⟩]
    norm_num [hsvRedC]
  · rw [h.2.2.1 ⟨255, 250, 0⟩]
    norm_num [hsvRedC]

/-- C10 counterexample: the detectors of the two variants disagree on numeric UI
inputs. With the sensitivity input parsing to the number 0 and minArea to 5,
a 9-pixel flash (the 5×5 frame with a 3×3 red block, against an all-zero
stored mask) is dropped by the manual variant — JavaScript `0 || 18`
defaults the numeric 0 to 18 — but scored by the auto variant, which uses
the 0 as is. -/
theorem variant_threshold_divergence :
    (detectTransientRedManual hsvRedC wholeBlobs (some 0) (some 5)
      (some zero5) frame5).1 = none ∧
    (detectTransientRedAuto hsvRedC wholeBlobs (some 0) (some 5)
      (some zero5) frame5).1 = some (2, 2) ∧
    detectTransientRedManual hsvRedC wholeBlobs (some 0) (some 5)
        (some zero5) frame5 ≠
      detectTransientRedAuto hsvRedC wholeBlobs (some 0) (some 5)
        (some zero5) frame5 := by
  have hblobs : wholeBlobs (satSub (colorSegment hsvRedC frame5) zero5) =
      [⟨[(1, 1), (2, 1), (3, 1), (1, 2), (2, 2), (3, 2), (1, 3), (2, 3), (3, 3)]⟩] := by
    decide
  have hcomp : (wholeBlobs (satSub (colorSegment hsvRedC frame5) zero5)).map
      Blob.comp = [⟨9, 9, 18, 18⟩] := by
    rw [hblobs]
    norm_num [Blob.comp]
  have hman : (detectTransientRedManual hsvRedC wholeBlobs (some 0) (some 5)
      (some zero5) frame5).1 = none := by
    unfold detectTransientRedManual detectCore
    dsimp only
    rw [hcomp]
    norm_num [detectBlobs, blobLoop, aGtB, jsOrDefault, Bool.and_eq_true,
      decide_eq_true_eq]
  have hauto : (detectTransientRedAuto hsvRedC wholeBlobs (some 0) (some 5)
      (some zero5) frame5).1 = some (2, 2) := by
    unfold detectTransientRedAuto detectCore
    dsimp only
    rw [hcomp]
    norm_num [detectBlobs, blobLoop, aGtB, Bool.and_eq_true,
      decide_eq_true_eq, jsCentroid, jsRound, Prod.ext_iff]
  refine ⟨hman, hauto, ?_⟩
  intro hcontra
  rw [hcontra] at hman
  rw [hman] at hauto
  cases hauto

/-- C10 (amended): the manual and the auto variant share the hit pipeline —
same HSV bands, saturation/value floors, red-green threshold 36, 3×3
opening, temporal diff and contour selection (`detectCore`), and the same
scoring function — so whenever the two UI threshold inputs parse to nonzero
numbers the two detectors return the same centroid (or lack thereof) and
the same new stored mask for every frame and previous-mask state; the
variants differ only in how the homography is produced and in threshold
defaulting when a UI input is not numeric or parses to the (falsy) number
0. -/
theorem variant_equivalence_amended (hsvFn : RGB → HSV)
    (blobsOf : Mask → List Blob) (sv mv : ℤ) (hs : sv ≠ 0) (hm : mv ≠ 0)
    (prev : Option Mask) (frame : Frame) :
    detectTransientRedManual hsvFn blobsOf (some sv) (some mv) prev frame =
      detectTransientRedAuto hsvFn blobsOf (some sv) (some mv) prev frame ∧
    (∀ p : Point, scoreBullseyeAuto p = scoreBullseye p) := by
  constructor
  · unfold detectTransientRedManual detectTransientRedAuto
    simp [jsOrDefault, hs, hm]
  · intro p
    rfl

/-- C10 witness: the amended equivalence at the default numeric inputs 18
and 16 on the concrete 5×5 flash frame. -/
theorem variant_equivalence_amended_witness :
    detectTransientRedManual hsvRedC wholeBlobs (some 18) (some 16)
        (some zero5) frame5 =
      detectTransientRedAuto hsvRedC wholeBlobs (some 18) (some 16)
        (some zero5) frame5 :=
  (variant_equivalence_amended hsvRedC wholeBlobs 18 16 (by decide)
    (by decide) (some zero5) frame5).1
